import Mathlib

/-!
Shallow embedding of the price-formatting and lookup core of `bot.py`
(Telegram crypto-price bot): the significant-digit number formatter
`round_significant`, the ticker resolver `get_coin_id`, the sentiment-emoji
helper `get_emoji`, the market-report construction in `handle_price`, and the
conversion formatting in `handle_convert`.

Python floats are modelled as exact rationals (`ℚ`); the non-finite values
`nan`/`inf`/`-inf`, which matter only for the formatter's error fallback, are
modelled by the inductive `PyFloat`.  Python `round` (round-half-to-even) is
modelled by `rhe`/`pyRound`, Python `int()` (truncation toward zero) by
`pyInt`, and the format specifiers `:,`, `:.Nf` and `:,.Nf` by
`pyIntGrouped`, `pyFixed` and `pyFixedGrouped`.
-/

/-- Round-half-to-even of a rational to an integer: the behaviour of Python's
built-in `round` at integer granularity (banker's rounding). -/
def rhe (q : ℚ) : ℤ :=
  if q - ⌊q⌋ < 1/2 then ⌊q⌋
  else if 1/2 < q - ⌊q⌋ then ⌊q⌋ + 1
  else if ⌊q⌋ % 2 = 0 then ⌊q⌋ else ⌊q⌋ + 1

/-- Python `round(x, d)`: round to the nearest multiple of `10^(-d)`,
ties to even. -/
def pyRound (x : ℚ) (d : ℤ) : ℚ :=
  (rhe (x * 10 ^ d) : ℚ) / 10 ^ d

/-- Python `int(x)` on a float: truncation toward zero. -/
def pyInt (q : ℚ) : ℤ :=
  if 0 ≤ q then ⌊q⌋ else -⌊-q⌋

/-- The value `q` lies on the decimal grid of step `10^(-d)`: it is an
integer multiple of `10^(-d)` (for example, any output of `pyRound _ d`). -/
def IsTenMul (q : ℚ) (d : ℤ) : Prop :=
  ∃ j : ℤ, q * 10 ^ d = (j : ℚ)

/-- Decimal digits of a natural number, most significant first; the `fuel`
argument only bounds the recursion depth (one unit per digit). -/
def natDigitsAux (fuel n : ℕ) : List Char :=
  match fuel with
  | 0 => []
  | fuel' + 1 =>
    if n = 0 then []
    else natDigitsAux fuel' (n / 10) ++ [Nat.digitChar (n % 10)]

/-- Decimal digit string of a natural number (`natDigits 0 = "0"`). -/
def natDigits (n : ℕ) : List Char :=
  if n = 0 then ['0'] else natDigitsAux n n

/-- Left-pad a digit list with `'0'` up to length `p` (used for the
fractional part of fixed-point rendering). -/
def padZeros (p : ℕ) (ds : List Char) : List Char :=
  List.replicate (p - ds.length) '0' ++ ds

/-- Insert a `','` before every group of three characters, walking a
least-significant-first digit list; `k` counts digits since the last comma. -/
def commaRev (cs : List Char) (k : ℕ) : List Char :=
  match cs with
  | [] => []
  | c :: rest => if k = 3 then ',' :: c :: commaRev rest 1 else c :: commaRev rest (k + 1)

/-- Thousands separators: `group3 "1234567" = "1,234,567"`. -/
def group3 (cs : List Char) : List Char :=
  (commaRev cs.reverse 0).reverse

/-- Python `f"{n:,}"` for an int: sign, then digits with thousands
separators. -/
def pyIntGrouped (n : ℤ) : String :=
  (if n < 0 then "-" else "") ++ String.mk (group3 (natDigits n.natAbs))

/-- Python `str(n)` for an int: sign and digits, no separators. -/
def pyIntStr (n : ℤ) : String :=
  (if n < 0 then "-" else "") ++ String.mk (natDigits n.natAbs)

/-- Python `f"{x:.pf}"`: fixed-point with exactly `p` decimal places (none,
and no decimal point, if `p = 0`); the magnitude is rounded half-to-even at
`p` decimals and the sign of a negative value is kept (so `-0.00...` can be
produced, as in CPython). -/
def pyFixed (p : ℕ) (q : ℚ) : String :=
  let n := (rhe (|q| * 10 ^ p)).toNat
  (if q < 0 then "-" else "") ++ String.mk (natDigits (n / 10 ^ p)) ++
    (if p = 0 then "" else "." ++ String.mk (padZeros p (natDigits (n % 10 ^ p))))

/-- Python `f"{x:,.pf}"`: like `pyFixed` but with thousands separators in the
integer part. -/
def pyFixedGrouped (p : ℕ) (q : ℚ) : String :=
  let n := (rhe (|q| * 10 ^ p)).toNat
  (if q < 0 then "-" else "") ++ String.mk (group3 (natDigits (n / 10 ^ p))) ++
    (if p = 0 then "" else "." ++ String.mk (padZeros p (natDigits (n % 10 ^ p))))

/-- Embedding of `round_significant(x, sig)` from `bot.py` on finite inputs
(the body of the `try:` block, which is total on finite floats):

    if x == 0: return "0"
    if abs(x) < 1e-10: return f"{x:.8f}"
    digits = sig - int(floor(log10(abs(x)))) - 1
    rounded = round(x, digits)
    if abs(rounded - int(rounded)) < 1e-12: return f"{int(rounded):,}"
    fmt = f"{{:,.{max(digits, 0)}f}}"
    return fmt.format(rounded)

`int(floor(log10(abs(x))))` is modelled exactly by `Int.log 10 |x|`. -/
def round_significant (x : ℚ) (sig : ℤ) : String :=
  if x = 0 then "0"
  else if |x| < 1/10^10 then pyFixed 8 x
  else
    let digits := sig - Int.log 10 |x| - 1
    let rounded := pyRound x digits
    if |rounded - (pyInt rounded : ℚ)| < 1/10^12 then pyIntGrouped (pyInt rounded)
    else pyFixedGrouped (max digits 0).toNat rounded

/-- A Python float: either a finite value (modelled exactly as a rational)
or one of the non-finite values `nan`, `inf`, `-inf`. -/
inductive PyFloat where
  | finite (q : ℚ)
  | nan
  | inf
  | ninf
deriving DecidableEq

/-- The `try:` block of `round_significant` as a fallible computation.  On a
finite float every step is total and the block returns normally; on `nan` the
call `floor(log10(abs(x)))` raises `ValueError` and on `±inf` it raises
`OverflowError` (the `x == 0` and `abs(x) < 1e-10` comparisons are `False`
for non-finite floats, so control always reaches `floor`). -/
def round_significant_body (x : PyFloat) (sig : ℤ) : Except String String :=
  match x with
  | .finite q => .ok (round_significant q sig)
  | .nan => .error "ValueError"
  | .inf => .error "OverflowError"
  | .ninf => .error "OverflowError"

/-- Python `str()` on the floats that can reach the `except:` fallback of
`round_significant`: `"nan"`, `"inf"`, `"-inf"`.  The fallback is unreachable
for finite floats (the body is total there, see `round_significant_body`), so
the finite case of this model is never consulted; it is left as `""`. -/
def pyStrNonFinite : PyFloat → String
  | .nan => "nan"
  | .inf => "inf"
  | .ninf => "-inf"
  | .finite _ => ""

/-- The full `round_significant` including the `try/except`: on any exception
from the body, fall back to `str(x)`. -/
def round_significant_float (x : PyFloat) (sig : ℤ) : String :=
  match round_significant_body x sig with
  | .ok s => s
  | .error _ => pyStrNonFinite x

/-- ASCII lower-casing of a character (the fragment of Python `str.lower`
relevant to the resolver's alias table, which is all-ASCII). -/
def pyLowerChar (c : Char) : Char :=
  if 65 ≤ c.toNat ∧ c.toNat ≤ 90 then Char.ofNat (c.toNat + 32) else c

/-- ASCII upper-casing of a character (Python `str.upper` on ASCII). -/
def pyUpperChar (c : Char) : Char :=
  if 97 ≤ c.toNat ∧ c.toNat ≤ 122 then Char.ofNat (c.toNat - 32) else c

/-- Python `s.lower()` (character-wise, ASCII fragment). -/
def pyLower (s : String) : String :=
  String.mk (s.data.map pyLowerChar)

/-- Python `s.upper()` (character-wise, ASCII fragment). -/
def pyUpper (s : String) : String :=
  String.mk (s.data.map pyUpperChar)

/-- Embedding of `get_coin_id(ticker)` from `bot.py`: lower-case the input,
apply the fixed alias table, otherwise pass the lower-cased form through. -/
def get_coin_id (ticker : String) : String :=
  let t := pyLower ticker
  if t = "idr" then "idr"
  else if t = "btc" then "bitcoin"
  else if t = "eth" then "ethereum"
  else if t = "usdt" then "tether"
  else t

/-- Embedding of `get_emoji` from `handle_price` (both the markets-path and
the fallback-path copies have identical behaviour; the `try/except` in the
first copy is dead for numeric input since float comparisons do not raise):

    if x is None: return ""
    if x >= 5: return "🍻"
    if x > 0: return "😀"
    if x < 0: return "😔"
    return ""
-/
def get_emoji (x : Option ℚ) : String :=
  match x with
  | none => ""
  | some v =>
    if 5 ≤ v then "🍻"
    else if 0 < v then "😀"
    else if v < 0 then "😔"
    else ""

/-- The emoji selection as the specification states it, with disjoint
conditions: `≥5 → 🍻`, `0<x<5 → 😀`, `<0 → 😔`, `0 or absent → ""`. -/
def specEmoji (x : Option ℚ) : String :=
  match x with
  | none => ""
  | some v =>
    if 5 ≤ v then "🍻"
    else if 0 < v ∧ v < 5 then "😀"
    else if v < 0 then "😔"
    else ""

/-- One element of the `/coins/markets` response, with every optional field
explicit (`none` models an absent/`null` JSON field). -/
structure MarketsItem where
  current_price : Option ℚ
  price_change_percentage_24h : Option ℚ
  price_change_percentage_1h_in_currency : Option ℚ
  price_change_percentage_7d_in_currency : Option ℚ
  high_24h : Option ℚ
  low_24h : Option ℚ
  market_cap : Option ℚ
  total_volume : Option ℚ
  fully_diluted_valuation : Option ℚ
  market_cap_rank : Option ℤ

/-- The `market_data` object of the fallback `/coins/{id}` response. -/
structure CoinsIdMarketData where
  price_usd : Option ℚ
  price_btc : Option ℚ
  price_eth : Option ℚ
  p_1h : Option ℚ
  p_24h : Option ℚ
  p_7d : Option ℚ
  high_24h : Option ℚ
  low_24h : Option ℚ
  market_cap : Option ℚ
  fdv : Option ℚ
  total_volume : Option ℚ
  market_cap_rank : Option ℤ

/-- Rank rendering in the report: `str(rank)` for a present rank, the
dictionary default `"N/A"` for an absent one. -/
def fmtRank : Option ℤ → String
  | some n => pyIntStr n
  | none => "N/A"

/-- The report f-string of the markets path of `handle_price`
(`bot.py` lines 177-189).  The three percent lines interpolate
`f"{p:.2f}"` directly; when the percent value is `None`, CPython raises
`TypeError: unsupported format string passed to NoneType.__format__`, so the
whole f-string (and hence the report) produces no value: this is modelled by
returning `none` unless all three percent fields are present.  All other
optional fields are defaulted before formatting exactly as in the source
(`data.get(..., 0)`, `"N/A"` for absent BTC/ETH prices and rank). -/
def formatMarketsOutput (ticker : String) (d : MarketsItem)
    (price_btc price_eth : Option ℚ) : Option String :=
  match d.price_change_percentage_1h_in_currency,
        d.price_change_percentage_24h,
        d.price_change_percentage_7d_in_currency with
  | some p1, some p24, some p7 => some (
      "*" ++ ticker ++ "*\n" ++
      "$" ++ round_significant (d.current_price.getD 0) 4 ++ "\n" ++
      "₿: " ++ (match price_btc with
                | some b => round_significant b 8
                | none => "N/A") ++ "\n" ++
      "Ξ: " ++ (match price_eth with
                | some e => round_significant e 8
                | none => "N/A") ++ "\n" ++
      "H|L: $" ++ round_significant (d.high_24h.getD 0) 4 ++ "|$" ++
        round_significant (d.low_24h.getD 0) 4 ++ "\n" ++
      "1h: " ++ pyFixed 2 p1 ++ "% " ++ get_emoji (some p1) ++ "\n" ++
      "24h: " ++ pyFixed 2 p24 ++ "% " ++ get_emoji (some p24) ++ "\n" ++
      "7d: " ++ pyFixed 2 p7 ++ "% " ++ get_emoji (some p7) ++ "\n" ++
      "Cap: #" ++ fmtRank d.market_cap_rank ++ " | $" ++
        pyFixedGrouped 0 (d.market_cap.getD 0) ++ "\n" ++
      "FDV: $" ++ pyFixedGrouped 0 (d.fully_diluted_valuation.getD 0) ++ "\n" ++
      "Vol: $" ++ pyFixedGrouped 0 (d.total_volume.getD 0))
  | _, _, _ => none

/-- The report f-string of the fallback path of `handle_price`
(`bot.py` lines 244-256).  Same `TypeError` behaviour on an absent percent
value; here the BTC/ETH prices are defaulted to `0` (not `"N/A"`). -/
def formatFallbackOutput (ticker : String) (md : CoinsIdMarketData) : Option String :=
  match md.p_1h, md.p_24h, md.p_7d with
  | some p1, some p24, some p7 => some (
      "*" ++ ticker ++ "*\n" ++
      "$" ++ round_significant (md.price_usd.getD 0) 4 ++ "\n" ++
      "₿: " ++ round_significant (md.price_btc.getD 0) 8 ++ "\n" ++
      "Ξ: " ++ round_significant (md.price_eth.getD 0) 8 ++ "\n" ++
      "H|L: $" ++ round_significant (md.high_24h.getD 0) 4 ++ "|$" ++
        round_significant (md.low_24h.getD 0) 4 ++ "\n" ++
      "1h: " ++ pyFixed 2 p1 ++ "% " ++ get_emoji (some p1) ++ "\n" ++
      "24h: " ++ pyFixed 2 p24 ++ "% " ++ get_emoji (some p24) ++ "\n" ++
      "7d: " ++ pyFixed 2 p7 ++ "% " ++ get_emoji (some p7) ++ "\n" ++
      "Cap: #" ++ fmtRank md.market_cap_rank ++ " | $" ++
        pyFixedGrouped 0 (md.market_cap.getD 0) ++ "\n" ++
      "FDV: $" ++ pyFixedGrouped 0 (md.fdv.getD 0) ++ "\n" ++
      "Vol: $" ++ pyFixedGrouped 0 (md.total_volume.getD 0))
  | _, _, _ => none

/-- The generic reply sent by the outermost `except Exception` of the
fallback path of `handle_price`. -/
def internalErrorReply : String :=
  "Terjadi kesalahan internal. Coba periksa format input Anda."

/-- Reply computation of `handle_price` after the network fetches (which are
out of scope) have produced their data: if the markets endpoint returned an
item, try to format it; any exception while doing so (in particular the
`TypeError` on an absent percent field) falls through to the `/coins/{id}`
fallback, whose own formatting exception is caught by the outermost handler
and answered with `internalErrorReply`. -/
def handle_price_reply (ticker : String) (markets : Option MarketsItem)
    (price_btc price_eth : Option ℚ) (detail : CoinsIdMarketData) : String :=
  let fallback :=
    match formatFallbackOutput ticker detail with
    | some s => s
    | none => internalErrorReply
  match markets with
  | some d =>
    match formatMarketsOutput ticker d price_btc price_eth with
    | some s => s
    | none => fallback
  | none => fallback

/-- The formatting core of `handle_convert` (`bot.py` lines 307-317):
given the parsed amount, the destination ticker (already lower-cased) and the
unit price, produce `(result_formatted, amount_formatted)`:

    result = amount * price
    if to_ticker == "idr":
        result_formatted = f"Rp{result:,.0f}"; amount_formatted = f"{amount:,.4f}"
    elif result < 1:
        result_formatted = round_significant(result, 6); amount_formatted = f"{amount:,.4f}"
    else:
        result_formatted = f"{result:,.2f}"; amount_formatted = f"{amount:,.2f}"
-/
def convert_formats (amount : ℚ) (to_ticker : String) (price : ℚ) : String × String :=
  let result := amount * price
  if to_ticker = "idr" then
    ("Rp" ++ pyFixedGrouped 0 result, pyFixedGrouped 4 amount)
  else if result < 1 then
    (round_significant result 6, pyFixedGrouped 4 amount)
  else
    (pyFixedGrouped 2 result, pyFixedGrouped 2 amount)

/-- The full reply string of `handle_convert` (line 319). -/
def handle_convert_reply (amount : ℚ) (from_ticker to_ticker : String) (price : ℚ) : String :=
  let fs := convert_formats amount to_ticker price
  "*" ++ fs.2 ++ " " ++ pyUpper from_ticker ++ "* sama dengan:\n*" ++
    fs.1 ++ " " ++ pyUpper to_ticker ++ "*"

/-- The conversion formatting policy as the specification states it
(destination `idr` first, then the `result < 1` magnitude test, else two
decimals for both sides). -/
def specConvertPolicy (amount : ℚ) (to_ticker : String) (price : ℚ) : String × String :=
  if to_ticker = "idr" then
    ("Rp" ++ pyFixedGrouped 0 (amount * price), pyFixedGrouped 4 amount)
  else if amount * price < 1 then
    (round_significant (amount * price) 6, pyFixedGrouped 4 amount)
  else
    (pyFixedGrouped 2 (amount * price), pyFixedGrouped 2 amount)

/-- Numeric value of a digit list, most significant digit first. -/
def digitsVal (cs : List Char) : ℕ :=
  cs.foldl (fun a c => 10 * a + (c.toNat - 48)) 0

/-- Value of an unsigned decimal string split at the first `'.'`. -/
def parseAbsCs (cs : List Char) : ℚ :=
  let ip := cs.takeWhile (fun c => c != '.')
  let fp := (cs.dropWhile (fun c => c != '.')).drop 1
  (digitsVal ip : ℚ) + (digitsVal fp : ℚ) / 10 ^ fp.length

/-- Value of a decimal string with an optional leading minus sign. -/
def parseSigned (cs : List Char) : ℚ :=
  if cs.head? = some '-' then -(parseAbsCs (cs.drop 1)) else parseAbsCs cs

/-- Parse the output of the formatter back to a number, stripping the
grouping separators first (the re-rounding claim's reading of
`float(s.replace(",", ""))`). -/
def parseF (s : String) : ℚ :=
  parseSigned (s.data.filter (fun c => c != ','))

/-- Number of characters after the decimal point of a rendered number, or
`none` if it has no decimal point. -/
def decimalPlaces (s : String) : Option ℕ :=
  if s.data.contains '.' then
    some ((s.data.reverse.takeWhile (fun c => c != '.')).length)
  else none

/-- The decimal-place count of significant-figure rounding as the
specification states it: `d = sig - floor(log10(|x|)) - 1`. -/
def specDigits (x : ℚ) (sig : ℤ) : ℤ :=
  sig - Int.log 10 |x| - 1

/-- A markets item with every optional field absent. -/
def allAbsentItem : MarketsItem :=
  ⟨none, none, none, none, none, none, none, none, none, none⟩

/-- A fallback market-data object with every optional field absent. -/
def allAbsentDetail : CoinsIdMarketData :=
  ⟨none, none, none, none, none, none, none, none, none, none, none, none⟩

/-! ### Arithmetic helper lemmas: round-half-even and Python round -/

theorem floor_le_rhe (q : ℚ) : ⌊q⌋ ≤ rhe q := by
  unfold rhe
  split_ifs <;> omega

theorem rhe_le_floor_add_one (q : ℚ) : rhe q ≤ ⌊q⌋ + 1 := by
  unfold rhe
  split_ifs <;> omega

theorem rhe_intCast (n : ℤ) : rhe (n : ℚ) = n := by
  unfold rhe
  rw [Int.floor_intCast]
  norm_num

theorem rhe_le_half (q : ℚ) : (rhe q : ℚ) ≤ q + 1/2 := by
  have h1 := Int.floor_le q
  have h2 := Int.lt_floor_add_one q
  unfold rhe
  split_ifs <;> push_cast <;> linarith

theorem half_le_rhe (q : ℚ) : q - 1/2 ≤ (rhe q : ℚ) := by
  have h1 := Int.floor_le q
  have h2 := Int.lt_floor_add_one q
  unfold rhe
  split_ifs <;> push_cast <;> linarith

theorem rhe_nonneg {q : ℚ} (h : 0 ≤ q) : 0 ≤ rhe q := by
  have h0 : 0 ≤ ⌊q⌋ := Int.floor_nonneg.mpr h
  have := floor_le_rhe q
  omega

theorem rhe_neg (q : ℚ) : rhe (-q) = -rhe q := by
  by_cases hfr : q - ⌊q⌋ = 0
  · have hq : q = (⌊q⌋ : ℚ) := by linarith
    rw [hq, ← Int.cast_neg, rhe_intCast, rhe_intCast]
  · have h1 := Int.floor_le q
    have h2 := Int.lt_floor_add_one q
    have hlt : (⌊q⌋ : ℚ) < q := lt_of_le_of_ne h1 (by intro h; exact hfr (by linarith))
    have hnf : ⌊-q⌋ = -⌊q⌋ - 1 := by
      rw [Int.floor_eq_iff]
      constructor
      · push_cast
        linarith
      · push_cast
        linarith
    unfold rhe
    rw [hnf]
    have hpar : (-⌊q⌋ - 1) % 2 = 0 ↔ ¬(⌊q⌋ % 2 = 0) := by omega
    split_ifs with a1 a2 a3 b1 b2 b3 b4 b5 <;> push_cast at * <;> first
      | omega
      | linarith
      | (exfalso; omega)
      | (exfalso; linarith)

theorem rhe_mono {a b : ℚ} (h : a ≤ b) : rhe a ≤ rhe b := by
  rcases lt_or_le ⌊a⌋ ⌊b⌋ with hf | hf
  · have ha := rhe_le_floor_add_one a
    have hb := floor_le_rhe b
    omega
  · have hab : ⌊a⌋ = ⌊b⌋ := le_antisymm (Int.floor_mono h) hf
    unfold rhe
    rw [hab]
    split_ifs <;> first
      | omega
      | (exfalso; linarith)

theorem zpow10_pos (d : ℤ) : (0:ℚ) < 10 ^ d :=
  zpow_pos (by norm_num) d

theorem zpow10_ne (d : ℤ) : (10:ℚ) ^ d ≠ 0 :=
  ne_of_gt (zpow10_pos d)

theorem pyRound_zero (d : ℤ) : pyRound 0 d = 0 := by
  unfold pyRound
  rw [zero_mul]
  rw [show ((0:ℚ) = ((0:ℤ):ℚ)) by norm_num, rhe_intCast]
  norm_num

theorem pyRound_exact {x : ℚ} {d : ℤ} {k : ℤ} (h : x * 10 ^ d = (k:ℚ)) :
    pyRound x d = x := by
  unfold pyRound
  rw [h, rhe_intCast, ← h]
  field_simp

theorem pyRound_mul_int (x : ℚ) (d : ℤ) :
    ∃ k : ℤ, pyRound x d * 10 ^ d = (k:ℚ) := by
  refine ⟨rhe (x * 10 ^ d), ?_⟩
  unfold pyRound
  field_simp

theorem pyRound_dist (x : ℚ) (d : ℤ) :
    |pyRound x d - x| ≤ 1 / (2 * 10 ^ d) := by
  have hp := zpow10_pos d
  have h1 := rhe_le_half (x * 10 ^ d)
  have h2 := half_le_rhe (x * 10 ^ d)
  have key : |(rhe (x * 10 ^ d) : ℚ) - x * 10 ^ d| ≤ 1/2 :=
    abs_le.mpr ⟨by linarith, by linarith⟩
  have heq : pyRound x d - x = ((rhe (x * 10 ^ d) : ℚ) - x * 10 ^ d) / 10 ^ d := by
    unfold pyRound
    field_simp
    ring
  rw [heq, abs_div, abs_of_pos hp, div_le_div_iff hp (by positivity)]
  nlinarith

theorem pyRound_neg (x : ℚ) (d : ℤ) : pyRound (-x) d = -pyRound x d := by
  unfold pyRound
  rw [neg_mul, rhe_neg]
  push_cast
  ring

theorem pyRound_nonneg {x : ℚ} (h : 0 ≤ x) (d : ℤ) : 0 ≤ pyRound x d := by
  unfold pyRound
  have : (0:ℤ) ≤ rhe (x * 10 ^ d) := rhe_nonneg (by positivity)
  positivity

theorem pyRound_mono {a b : ℚ} (h : a ≤ b) (d : ℤ) :
    pyRound a d ≤ pyRound b d := by
  unfold pyRound
  have hm : rhe (a * 10 ^ d) ≤ rhe (b * 10 ^ d) :=
    rhe_mono (mul_le_mul_of_nonneg_right h (le_of_lt (zpow10_pos d)))
  have hm' : ((rhe (a * 10 ^ d) : ℤ) : ℚ) ≤ ((rhe (b * 10 ^ d) : ℤ) : ℚ) := by
    exact_mod_cast hm
  have hp := zpow10_pos d
  gcongr

theorem abs_pyRound (x : ℚ) (d : ℤ) : |pyRound x d| = pyRound |x| d := by
  rcases le_or_lt 0 x with hx | hx
  · rw [abs_of_nonneg hx, abs_of_nonneg (pyRound_nonneg hx d)]
  · have hx' : 0 ≤ -x := by linarith
    rw [abs_of_neg hx]
    have hnp : pyRound x d ≤ 0 := by
      have := pyRound_mono (le_of_lt hx) d
      rw [pyRound_zero] at this
      exact this
    rw [abs_of_nonpos hnp, ← pyRound_neg]

/-! ### Digit-list machinery -/

theorem digitsVal_foldl (a : ℕ) (l : List Char) :
    l.foldl (fun a c => 10 * a + (c.toNat - 48)) a = a * 10 ^ l.length + digitsVal l := by
  induction l generalizing a with
  | nil => simp [digitsVal]
  | cons c t ih =>
    simp only [List.foldl_cons, List.length_cons, digitsVal]
    rw [ih, ih (10 * 0 + (c.toNat - 48))]
    ring

theorem digitsVal_append (l1 l2 : List Char) :
    digitsVal (l1 ++ l2) = digitsVal l1 * 10 ^ l2.length + digitsVal l2 := by
  unfold digitsVal
  rw [List.foldl_append]
  exact digitsVal_foldl _ l2

theorem digitsVal_single (c : Char) : digitsVal [c] = c.toNat - 48 := by
  simp [digitsVal]

theorem digitChar_facts {k : ℕ} (h : k < 10) :
    (Nat.digitChar k).toNat - 48 = k ∧ Nat.digitChar k ≠ '.' ∧
      Nat.digitChar k ≠ ',' ∧ Nat.digitChar k ≠ '-' := by
  interval_cases k <;> exact ⟨by decide, by decide, by decide, by decide⟩

theorem natDigitsAux_mem {fuel n : ℕ} {c : Char} (h : c ∈ natDigitsAux fuel n) :
    ∃ k, k < 10 ∧ c = Nat.digitChar k := by
  induction fuel generalizing n with
  | zero => simp [natDigitsAux] at h
  | succ fuel' ih =>
    unfold natDigitsAux at h
    by_cases hn : n = 0
    · simp [hn] at h
    · rw [if_neg hn] at h
      rcases List.mem_append.mp h with h1 | h1
      · exact ih h1
      · simp at h1
        exact ⟨n % 10, Nat.mod_lt _ (by norm_num), h1⟩

theorem natDigitsAux_val {fuel n : ℕ} (h : n ≤ fuel) :
    digitsVal (natDigitsAux fuel n) = n := by
  induction fuel generalizing n with
  | zero =>
    have hn : n = 0 := by omega
    simp [hn, natDigitsAux, digitsVal]
  | succ fuel' ih =>
    unfold natDigitsAux
    by_cases hn : n = 0
    · simp [hn, digitsVal]
    · have h10 : n % 10 < 10 := Nat.mod_lt _ (by norm_num)
      have hdiv : n / 10 ≤ fuel' := by
        have := Nat.div_lt_self (Nat.pos_of_ne_zero hn) (by norm_num : (1:ℕ) < 10)
        omega
      rw [if_neg hn, digitsVal_append, digitsVal_single, (digitChar_facts h10).1,
        ih hdiv]
      simp only [List.length_singleton, pow_one]
      omega

theorem natDigitsAux_len {fuel n k : ℕ} (h : n < 10 ^ k) :
    (natDigitsAux fuel n).length ≤ k := by
  induction fuel generalizing n k with
  | zero => simp [natDigitsAux]
  | succ fuel' ih =>
    unfold natDigitsAux
    by_cases hn : n = 0
    · simp [hn]
    · rw [if_neg hn]
      have hk : 1 ≤ k := by
        by_contra hk
        interval_cases k
        omega
      have hdiv : n / 10 < 10 ^ (k - 1) := by
        rw [Nat.div_lt_iff_lt_mul (by norm_num)]
        calc n < 10 ^ k := h
        _ = 10 ^ (k - 1) * 10 := by
          rw [← pow_succ]
          congr 1
          omega
      have := ih hdiv
      simp only [List.length_append, List.length_cons, List.length_nil]
      omega

theorem natDigits_val (n : ℕ) : digitsVal (natDigits n) = n := by
  unfold natDigits
  by_cases hn : n = 0
  · simp [hn, digitsVal]
  · rw [if_neg hn]
    exact natDigitsAux_val le_rfl

theorem natDigits_mem {n : ℕ} {c : Char} (h : c ∈ natDigits n) :
    ∃ k, k < 10 ∧ c = Nat.digitChar k := by
  unfold natDigits at h
  by_cases hn : n = 0
  · simp [hn] at h
    exact ⟨0, by norm_num, h⟩
  · rw [if_neg hn] at h
    exact natDigitsAux_mem h

theorem natDigits_not_special {n : ℕ} {c : Char} (h : c ∈ natDigits n) :
    c ≠ '.' ∧ c ≠ ',' ∧ c ≠ '-' := by
  obtain ⟨k, hk, rfl⟩ := natDigits_mem h
  exact (digitChar_facts hk).2

theorem natDigits_len {n k : ℕ} (h : n < 10 ^ k) (hk : 1 ≤ k) :
    (natDigits n).length ≤ k := by
  unfold natDigits
  by_cases hn : n = 0
  · rw [if_pos hn]
    simpa using hk
  · rw [if_neg hn]
    exact natDigitsAux_len h

theorem digitsVal_replicate_zero (k : ℕ) : digitsVal (List.replicate k '0') = 0 := by
  induction k with
  | zero => rfl
  | succ k' ih =>
    rw [List.replicate_succ]
    exact ih

theorem padZeros_val (p : ℕ) (ds : List Char) :
    digitsVal (padZeros p ds) = digitsVal ds := by
  unfold padZeros
  rw [digitsVal_append, digitsVal_replicate_zero]
  ring

theorem padZeros_len {p : ℕ} {ds : List Char} (h : ds.length ≤ p) :
    (padZeros p ds).length = p := by
  unfold padZeros
  simp
  omega

theorem padZeros_mem {p : ℕ} {ds : List Char} {c : Char} (h : c ∈ padZeros p ds) :
    c ∈ ds ∨ c = '0' := by
  unfold padZeros at h
  rcases List.mem_append.mp h with h1 | h1
  · right
    exact List.eq_of_mem_replicate h1
  · left
    exact h1

theorem commaRev_filter {cs : List Char} (h : ∀ c ∈ cs, c ≠ ',') (k : ℕ) :
    (commaRev cs k).filter (fun c => c != ',') = cs := by
  induction cs generalizing k with
  | nil => rfl
  | cons c t ih =>
    have hc : (c != ',') = true := by
      simp only [bne_iff_ne, ne_eq]
      exact h c (List.mem_cons_self _ _)
    have ht : ∀ x ∈ t, x ≠ ',' := fun x hx => h x (List.mem_cons_of_mem _ hx)
    unfold commaRev
    by_cases hk : k = 3
    · rw [if_pos hk]
      simp only [List.filter_cons, hc, bne_self_eq_false, Bool.false_eq_true,
        if_false, if_true]
      rw [ih ht]
    · rw [if_neg hk]
      simp only [List.filter_cons, hc, if_true]
      rw [ih ht]

theorem commaRev_mem {cs : List Char} {k : ℕ} {c : Char} (h : c ∈ commaRev cs k) :
    c ∈ cs ∨ c = ',' := by
  induction cs generalizing k with
  | nil => simp [commaRev] at h
  | cons d t ih =>
    unfold commaRev at h
    by_cases hk : k = 3
    · rw [if_pos hk] at h
      simp only [List.mem_cons] at h
      rcases h with h | h | h
      · right; exact h
      · left; simp [h]
      · rcases ih h with h1 | h1
        · left; exact List.mem_cons_of_mem _ h1
        · right; exact h1
    · rw [if_neg hk] at h
      simp only [List.mem_cons] at h
      rcases h with h | h
      · left; simp [h]
      · rcases ih h with h1 | h1
        · left; exact List.mem_cons_of_mem _ h1
        · right; exact h1

theorem group3_filter {cs : List Char} (h : ∀ c ∈ cs, c ≠ ',') :
    (group3 cs).filter (fun c => c != ',') = cs := by
  unfold group3
  rw [List.filter_reverse,
    commaRev_filter (fun c hc => h c (List.mem_reverse.mp hc)) 0,
    List.reverse_reverse]

theorem group3_mem {cs : List Char} {c : Char} (h : c ∈ group3 cs) :
    c ∈ cs ∨ c = ',' := by
  unfold group3 at h
  rcases commaRev_mem (List.mem_reverse.mp h) with h1 | h1
  · left
    exact List.mem_reverse.mp h1
  · right
    exact h1

/-! ### Parsing the rendered output back -/

theorem takeWhile_all {α : Type} {p : α → Bool} {l : List α}
    (h : ∀ c ∈ l, p c = true) : l.takeWhile p = l := by
  induction l with
  | nil => rfl
  | cons c t ih =>
    rw [List.takeWhile_cons, if_pos (h c (List.mem_cons_self _ _)),
      ih (fun x hx => h x (List.mem_cons_of_mem _ hx))]

theorem dropWhile_all {α : Type} {p : α → Bool} {l : List α}
    (h : ∀ c ∈ l, p c = true) : l.dropWhile p = [] := by
  induction l with
  | nil => rfl
  | cons c t ih =>
    rw [List.dropWhile_cons, if_pos (h c (List.mem_cons_self _ _))]
    exact ih (fun x hx => h x (List.mem_cons_of_mem _ hx))

theorem takeWhile_append_dot {ds fs : List Char} (hd : ∀ c ∈ ds, c ≠ '.') :
    (ds ++ '.' :: fs).takeWhile (fun c => c != '.') = ds := by
  induction ds with
  | nil =>
    rw [List.nil_append, List.takeWhile_cons]
    norm_num
  | cons c t ih =>
    rw [List.cons_append, List.takeWhile_cons]
    have hc : (c != '.') = true := by
      simp only [bne_iff_ne, ne_eq]
      exact hd c (List.mem_cons_self _ _)
    rw [if_pos hc, ih (fun x hx => hd x (List.mem_cons_of_mem _ hx))]

theorem dropWhile_append_dot {ds fs : List Char} (hd : ∀ c ∈ ds, c ≠ '.') :
    (ds ++ '.' :: fs).dropWhile (fun c => c != '.') = '.' :: fs := by
  induction ds with
  | nil =>
    rw [List.nil_append, List.dropWhile_cons]
    norm_num
  | cons c t ih =>
    rw [List.cons_append, List.dropWhile_cons]
    have hc : (c != '.') = true := by
      simp only [bne_iff_ne, ne_eq]
      exact hd c (List.mem_cons_self _ _)
    rw [if_pos hc, ih (fun x hx => hd x (List.mem_cons_of_mem _ hx))]

theorem parseAbsCs_digits {ds : List Char} (hd : ∀ c ∈ ds, c ≠ '.') :
    parseAbsCs ds = (digitsVal ds : ℚ) := by
  unfold parseAbsCs
  have h1 : ds.takeWhile (fun c => c != '.') = ds :=
    takeWhile_all (fun c hc => by
      simp only [bne_iff_ne, ne_eq]
      exact hd c hc)
  have h2 : ds.dropWhile (fun c => c != '.') = [] :=
    dropWhile_all (fun c hc => by
      simp only [bne_iff_ne, ne_eq]
      exact hd c hc)
  rw [h1, h2]
  simp [digitsVal]

theorem parseAbsCs_split {ds fs : List Char} (hd : ∀ c ∈ ds, c ≠ '.') :
    parseAbsCs (ds ++ '.' :: fs) =
      (digitsVal ds : ℚ) + (digitsVal fs : ℚ) / 10 ^ fs.length := by
  unfold parseAbsCs
  rw [takeWhile_append_dot hd, dropWhile_append_dot hd, List.drop_one,
    List.tail_cons]

theorem parseSigned_no_dash {cs : List Char} (h : ∀ c ∈ cs, c ≠ '-') :
    parseSigned cs = parseAbsCs cs := by
  unfold parseSigned
  cases cs with
  | nil => simp
  | cons c t =>
    have hc : c ≠ '-' := h c (List.mem_cons_self _ _)
    rw [List.head?_cons, if_neg (by simpa using hc)]

theorem parseSigned_dash (rest : List Char) :
    parseSigned ('-' :: rest) = -(parseAbsCs rest) := by
  unfold parseSigned
  rw [List.head?_cons, if_pos rfl, List.drop_one, List.tail_cons]

theorem pyIntGrouped_data (n : ℤ) :
    (pyIntGrouped n).data =
      (if n < 0 then ['-'] else []) ++ group3 (natDigits n.natAbs) := by
  unfold pyIntGrouped
  by_cases h : n < 0 <;> simp [h, String.data_append]

theorem parse_pyIntGrouped (n : ℤ) : parseF (pyIntGrouped n) = (n : ℚ) := by
  have hcomma : ∀ c ∈ natDigits n.natAbs, c ≠ ',' :=
    fun c hc => (natDigits_not_special hc).2.1
  have hdot : ∀ c ∈ natDigits n.natAbs, c ≠ '.' :=
    fun c hc => (natDigits_not_special hc).1
  have hdash : ∀ c ∈ natDigits n.natAbs, c ≠ '-' :=
    fun c hc => (natDigits_not_special hc).2.2
  unfold parseF
  rw [pyIntGrouped_data, List.filter_append, group3_filter hcomma]
  by_cases h : n < 0
  · rw [if_pos h]
    have : List.filter (fun c => c != ',') ['-'] = ['-'] := by decide
    rw [this, List.singleton_append, parseSigned_dash, parseAbsCs_digits hdot,
      natDigits_val]
    rw [Int.cast_natAbs, Int.cast_abs, abs_of_neg (by exact_mod_cast h)]
    ring
  · rw [if_neg h, List.filter_nil, List.nil_append, parseSigned_no_dash hdash,
      parseAbsCs_digits hdot, natDigits_val]
    rw [Int.cast_natAbs, Int.cast_abs,
      abs_of_nonneg (by exact_mod_cast (not_lt.mp h))]

theorem pyFixedGrouped_data {p : ℕ} (hp : 1 ≤ p) (q : ℚ) :
    (pyFixedGrouped p q).data =
      ((if q < 0 then ['-'] else []) ++
        group3 (natDigits ((rhe (|q| * 10 ^ p)).toNat / 10 ^ p))) ++
        ('.' :: padZeros p (natDigits ((rhe (|q| * 10 ^ p)).toNat % 10 ^ p))) := by
  unfold pyFixedGrouped
  have hp0 : p ≠ 0 := by omega
  by_cases h : q < 0 <;>
    simp [h, hp0, String.data_append, List.append_assoc]

theorem pyInt_intCast (n : ℤ) : pyInt (n : ℚ) = n := by
  unfold pyInt
  by_cases h : (0:ℚ) ≤ (n:ℚ)
  · rw [if_pos h, Int.floor_intCast]
  · rw [if_neg h, ← Int.cast_neg, Int.floor_intCast]
    ring

theorem abs_pyInt_le (q : ℚ) : |(pyInt q : ℚ)| ≤ |q| := by
  unfold pyInt
  by_cases h : 0 ≤ q
  · rw [if_pos h, abs_of_nonneg h,
      abs_of_nonneg (by exact_mod_cast Int.floor_nonneg.mpr h : (0:ℚ) ≤ (⌊q⌋:ℚ))]
    exact Int.floor_le q
  · push_neg at h
    have h2 : (0:ℚ) ≤ -q := by linarith
    have h3 : (0:ℤ) ≤ ⌊-q⌋ := Int.floor_nonneg.mpr h2
    rw [if_neg (not_le.mpr h), abs_of_neg h]
    push_cast
    rw [abs_neg, abs_of_nonneg (by exact_mod_cast h3)]
    exact Int.floor_le (-q)

theorem IsTenMul.round_fix {q : ℚ} {d : ℤ} (h : IsTenMul q d) : pyRound q d = q := by
  obtain ⟨j, hj⟩ := h
  exact pyRound_exact hj

theorem pyRound_isTenMul (x : ℚ) (d : ℤ) : IsTenMul (pyRound x d) d :=
  pyRound_mul_int x d

theorem IsTenMul.mono {q : ℚ} {d d' : ℤ} (h : IsTenMul q d) (hdd : d ≤ d') :
    IsTenMul q d' := by
  obtain ⟨j, hj⟩ := h
  refine ⟨j * 10 ^ (d' - d).toNat, ?_⟩
  have h1 : (10:ℚ) ^ d' = 10 ^ d * 10 ^ (d' - d).toNat := by
    rw [← zpow_natCast (10:ℚ) (d' - d).toNat, ← zpow_add₀ (by norm_num : (10:ℚ) ≠ 0),
      Int.toNat_of_nonneg (by omega : (0:ℤ) ≤ d' - d)]
    congr 1
    ring
  rw [h1, ← mul_assoc, hj]
  push_cast
  ring

theorem zpow10_toNat {d : ℤ} (hd : 0 ≤ d) : (10:ℚ) ^ d = ((10 ^ d.toNat : ℤ) : ℚ) := by
  have h : d = (d.toNat : ℤ) := (Int.toNat_of_nonneg hd).symm
  calc (10:ℚ) ^ d = (10:ℚ) ^ (d.toNat : ℤ) := by rw [← h]
  _ = (10:ℚ) ^ d.toNat := zpow_natCast 10 d.toNat
  _ = ((10 ^ d.toNat : ℤ) : ℚ) := by push_cast; ring

theorem IsTenMul.int_cast (m : ℤ) {d : ℤ} (hd : 0 ≤ d) : IsTenMul (m : ℚ) d := by
  refine ⟨m * 10 ^ d.toNat, ?_⟩
  rw [zpow10_toNat hd]
  push_cast
  ring

theorem IsTenMul.zpow10 {e d : ℤ} (h : 0 ≤ e + d) : IsTenMul ((10:ℚ) ^ e) d := by
  refine ⟨10 ^ (e + d).toNat, ?_⟩
  rw [← zpow_add₀ (by norm_num : (10:ℚ) ≠ 0), zpow10_toNat h]

theorem IsTenMul.to_int {q : ℚ} {d : ℤ} (h : IsTenMul q d) (hd : d ≤ 0) :
    ∃ i : ℤ, q = (i : ℚ) := by
  obtain ⟨j, hj⟩ := h
  refine ⟨j * 10 ^ (-d).toNat, ?_⟩
  have hne := zpow10_ne d
  have hq : q = (j : ℚ) * 10 ^ (-d : ℤ) := by
    rw [zpow_neg, ← hj]
    field_simp
  rw [hq, zpow10_toNat (by omega : (0:ℤ) ≤ -d)]
  push_cast
  ring

theorem le_log10 {q : ℚ} {e : ℤ} (hq : 0 < q) (h : (10:ℚ) ^ e ≤ q) :
    e ≤ Int.log 10 q := by
  have h10 : ((10:ℕ):ℚ) = (10:ℚ) := by norm_num
  exact (Int.zpow_le_iff_le_log (b := 10) (by norm_num) hq).mp (by rwa [h10])

theorem log10_lt {q : ℚ} {e : ℤ} (hq : 0 < q) (h : q < (10:ℚ) ^ e) :
    Int.log 10 q < e := by
  have h10 : ((10:ℕ):ℚ) = (10:ℚ) := by norm_num
  exact (Int.lt_zpow_iff_log_lt (b := 10) (by norm_num) hq).mp (by rwa [h10])

theorem ten_zpow_log_le {q : ℚ} (h : 0 < q) : (10:ℚ) ^ (Int.log 10 q) ≤ q := by
  have h2 := Int.zpow_log_le_self (b := 10) (by norm_num) h
  have h10 : ((10:ℕ):ℚ) = (10:ℚ) := by norm_num
  rwa [h10] at h2

theorem lt_ten_zpow_log (q : ℚ) : q < (10:ℚ) ^ (Int.log 10 q + 1) := by
  have h2 := Int.lt_zpow_succ_log_self (b := 10) (by norm_num) q
  have h10 : ((10:ℕ):ℚ) = (10:ℚ) := by norm_num
  rwa [h10] at h2

theorem log10_unique {q : ℚ} {e : ℤ} (h0 : 0 < q) (h1 : (10:ℚ) ^ e ≤ q)
    (h2 : q < (10:ℚ) ^ (e + 1)) : Int.log 10 q = e := by
  have ha := le_log10 h0 h1
  have hb := log10_lt h0 h2
  omega

theorem parse_pyFixedGrouped {q : ℚ} {p : ℕ} {k : ℤ} (hp : 1 ≤ p)
    (hqk : q * 10 ^ p = (k : ℚ)) :
    parseF (pyFixedGrouped p q) = q := by
  have hpow : (0:ℚ) < 10 ^ p := by positivity
  have habs : |q| * 10 ^ p = ((k.natAbs : ℕ) : ℚ) := by
    have h1 : |q| * 10 ^ p = |(k : ℚ)| := by
      rw [← abs_of_pos hpow, ← abs_mul, hqk]
    have h2 : |(k : ℚ)| = ((k.natAbs : ℕ) : ℚ) := by
      have h4 : |k| = (k.natAbs : ℤ) := Int.abs_eq_natAbs k
      rw [← Int.cast_abs, h4, Int.cast_natCast]
    rw [h1, h2]
  have hn : (rhe (|q| * 10 ^ p)).toNat = k.natAbs := by
    have h3 : ((k.natAbs : ℕ) : ℚ) = (((k.natAbs : ℕ) : ℤ) : ℚ) :=
      (Int.cast_natCast _).symm
    rw [habs, h3, rhe_intCast]
    omega
  have habsq : |q| = ((k.natAbs : ℕ) : ℚ) / 10 ^ p := by
    rw [eq_div_iff (ne_of_gt hpow)]
    exact habs
  have hmodlt : k.natAbs % 10 ^ p < 10 ^ p :=
    Nat.mod_lt _ (by positivity)
  have hdotI : ∀ c ∈ natDigits (k.natAbs / 10 ^ p), c ≠ '.' :=
    fun c hc => (natDigits_not_special hc).1
  have hcommaI : ∀ c ∈ natDigits (k.natAbs / 10 ^ p), c ≠ ',' :=
    fun c hc => (natDigits_not_special hc).2.1
  have hdashI : ∀ c ∈ natDigits (k.natAbs / 10 ^ p), c ≠ '-' :=
    fun c hc => (natDigits_not_special hc).2.2
  have hfracMem : ∀ c ∈ padZeros p (natDigits (k.natAbs % 10 ^ p)),
      c ≠ ',' ∧ c ≠ '-' := by
    intro c hc
    rcases padZeros_mem hc with h1 | h1
    · exact ⟨(natDigits_not_special h1).2.1, (natDigits_not_special h1).2.2⟩
    · subst h1
      exact ⟨by decide, by decide⟩
  have hlen : (padZeros p (natDigits (k.natAbs % 10 ^ p))).length = p :=
    padZeros_len (natDigits_len hmodlt hp)
  have hvals : (digitsVal (natDigits (k.natAbs / 10 ^ p)) : ℚ) +
      (digitsVal (padZeros p (natDigits (k.natAbs % 10 ^ p))) : ℚ) /
        10 ^ (padZeros p (natDigits (k.natAbs % 10 ^ p))).length = |q| := by
    rw [hlen, natDigits_val, padZeros_val, natDigits_val, habsq]
    have hdm := Nat.div_add_mod k.natAbs (10 ^ p)
    have hcast : ((10 ^ p * (k.natAbs / 10 ^ p) + k.natAbs % 10 ^ p : ℕ) : ℚ) =
        ((k.natAbs : ℕ) : ℚ) := by rw [hdm]
    push_cast at hcast
    field_simp
    linarith
  unfold parseF
  rw [pyFixedGrouped_data hp, hn, List.filter_append, List.filter_append,
    group3_filter hcommaI]
  have hsign : List.filter (fun c => c != ',') (if q < 0 then ['-'] else []) =
      (if q < 0 then ['-'] else []) := by
    by_cases h : q < 0 <;> simp [h]
  have hfrac : List.filter (fun c => c != ',')
      ('.' :: padZeros p (natDigits (k.natAbs % 10 ^ p))) =
      '.' :: padZeros p (natDigits (k.natAbs % 10 ^ p)) := by
    rw [List.filter_cons, if_pos (by decide),
      List.filter_eq_self.mpr (fun a ha => by
        simp only [bne_iff_ne, ne_eq]
        exact (hfracMem a ha).1)]
  rw [hsign, hfrac]
  by_cases h : q < 0
  · rw [if_pos h, List.append_assoc, List.singleton_append, parseSigned_dash,
      parseAbsCs_split hdotI, hvals, abs_of_neg h]
    ring
  · rw [if_neg h, List.nil_append]
    rw [parseSigned_no_dash (by
      intro c hc
      rcases List.mem_append.mp hc with h1 | h1
      · exact hdashI c h1
      · rcases List.mem_cons.mp h1 with h2 | h2
        · subst h2
          decide
        · exact (hfracMem c h2).2)]
    rw [parseAbsCs_split hdotI, hvals, abs_of_nonneg (not_lt.mp h)]

/-! ### Lower-casing and the resolver -/

theorem pyLowerChar_toNat {c : Char} (h1 : 65 ≤ c.toNat) (h2 : c.toNat ≤ 90) :
    (pyLowerChar c).toNat = c.toNat + 32 := by
  unfold pyLowerChar
  rw [if_pos ⟨h1, h2⟩]
  have hv : (c.toNat + 32).isValidChar := by
    left
    omega
  rw [Char.ofNat, dif_pos hv]
  rfl

theorem pyLowerChar_fix {c : Char} (h : ¬(65 ≤ c.toNat ∧ c.toNat ≤ 90)) :
    pyLowerChar c = c :=
  if_neg h

theorem pyLowerChar_idem (c : Char) : pyLowerChar (pyLowerChar c) = pyLowerChar c := by
  by_cases h : 65 ≤ c.toNat ∧ c.toNat ≤ 90
  · have ht := pyLowerChar_toNat h.1 h.2
    apply pyLowerChar_fix
    rw [ht]
    omega
  · rw [pyLowerChar_fix h, pyLowerChar_fix h]

theorem pyLower_idem (s : String) : pyLower (pyLower s) = pyLower s := by
  unfold pyLower
  apply String.ext
  show (s.data.map pyLowerChar).map pyLowerChar = s.data.map pyLowerChar
  rw [List.map_map]
  exact List.map_congr_left (fun c _ => pyLowerChar_idem c)

theorem pyLower_data_length (s : String) : (pyLower s).data.length = s.data.length := by
  unfold pyLower
  exact List.length_map _ _

/-- Claim C3, as stated, is false at the empty string: the resolver returns
the empty string, not a non-empty one (counterexample for C3). -/
theorem get_coin_id_empty : get_coin_id "" = "" ∧ ("" : String).data.length = 0 := by
  constructor
  · decide
  · rfl

/-- Claim C3 (amended): the ticker resolver is total and deterministic; for
every string `s` it returns a lowercase string (a fixed point of
lower-casing) which is non-empty whenever `s` is non-empty; every ticker
whose lowercased form is not in the alias table resolves to its own
lowercased form; and the alias table maps BTC/btc to `"bitcoin"`, eth to
`"ethereum"`, usdt to `"tether"`, idr to `"idr"`, with e.g. `"xyz123"`
passing through unchanged. -/
theorem get_coin_id_total (s : String) :
    (s ≠ "" → get_coin_id s ≠ "") ∧
    pyLower (get_coin_id s) = get_coin_id s ∧
    (pyLower s ≠ "idr" → pyLower s ≠ "btc" → pyLower s ≠ "eth" →
      pyLower s ≠ "usdt" → get_coin_id s = pyLower s) ∧
    get_coin_id "BTC" = "bitcoin" ∧ get_coin_id "btc" = "bitcoin" ∧
    get_coin_id "ETH" = "ethereum" ∧ get_coin_id "eth" = "ethereum" ∧
    get_coin_id "usdt" = "tether" ∧ get_coin_id "USDT" = "tether" ∧
    get_coin_id "idr" = "idr" ∧ get_coin_id "xyz123" = "xyz123" := by
  refine ⟨?_, ?_, ?_, by decide, by decide, by decide, by decide, by decide,
    by decide, by decide, by decide⟩
  · intro hs hempty
    simp only [get_coin_id] at hempty
    split_ifs at hempty with h1 h2 h3 h4
    · exact absurd hempty (by decide)
    · exact absurd hempty (by decide)
    · exact absurd hempty (by decide)
    · exact absurd hempty (by decide)
    · have hdata : (pyLower s).data = [] := by
        rw [hempty]
      have : s.data = [] := by
        have := pyLower_data_length s
        rw [hdata] at this
        exact List.eq_nil_of_length_eq_zero this.symm
      exact hs (String.ext this)
  · simp only [get_coin_id]
    split_ifs with h1 h2 h3 h4
    · decide
    · decide
    · decide
    · decide
    · exact pyLower_idem s
  · intro h1 h2 h3 h4
    simp only [get_coin_id]
    rw [if_neg h1, if_neg h2, if_neg h3, if_neg h4]

/-- Claim C9: the ticker resolver is idempotent — every output of
`get_coin_id` (an alias target or a lowercased pass-through) is a fixed
point of `get_coin_id`. -/
theorem get_coin_id_idem (s : String) :
    get_coin_id (get_coin_id s) = get_coin_id s := by
  have hcase : get_coin_id s = "idr" ∨ get_coin_id s = "bitcoin" ∨
      get_coin_id s = "ethereum" ∨ get_coin_id s = "tether" ∨
      (get_coin_id s = pyLower s ∧ pyLower s ≠ "idr" ∧ pyLower s ≠ "btc" ∧
        pyLower s ≠ "eth" ∧ pyLower s ≠ "usdt") := by
    simp only [get_coin_id]
    split_ifs with h1 h2 h3 h4 <;> tauto
  rcases hcase with h | h | h | h | ⟨heq, h1, h2, h3, h4⟩
  · rw [h]
    decide
  · rw [h]
    decide
  · rw [h]
    decide
  · rw [h]
    decide
  · rw [heq]
    simp only [get_coin_id]
    rw [pyLower_idem, if_neg h1, if_neg h2, if_neg h3, if_neg h4]

/-! ### Sentiment emoji -/

/-- Claim C5: the sentiment-emoji helper agrees everywhere with the
specification's disjoint-condition table (`≥5 → 🍻` checked before the
generic-positive branch, `0<x<5 → 😀`, `<0 → 😔`, `0 or absent → ""`), and
takes the specified values at 5, 4.99, 0, -0.01 and `None`. -/
theorem get_emoji_spec :
    (∀ x : Option ℚ, get_emoji x = specEmoji x) ∧
    get_emoji (some 5) = "🍻" ∧ get_emoji (some (499/100)) = "😀" ∧
    get_emoji (some 0) = "" ∧ get_emoji (some (-(1/100))) = "😔" ∧
    get_emoji none = "" := by
  refine ⟨?_, by norm_num [get_emoji], by norm_num [get_emoji],
    by norm_num [get_emoji], by norm_num [get_emoji], rfl⟩
  intro x
  rcases x with _ | v
  · rfl
  · simp only [get_emoji, specEmoji]
    by_cases h1 : 5 ≤ v
    · rw [if_pos h1, if_pos h1]
    · rw [if_neg h1, if_neg h1]
      by_cases h2 : 0 < v
      · rw [if_pos h2, if_pos (⟨h2, not_le.mp h1⟩ : 0 < v ∧ v < 5)]
      · rw [if_neg h2, if_neg (fun hc : 0 < v ∧ v < 5 => h2 hc.1)]

/-- Witness for C3 (amended) at the concrete tickers `"BTC"` (aliased,
non-empty) and `"xyz123"` (pass-through). -/
theorem get_coin_id_total_witness :
    (("BTC" : String) ≠ "" ∧ get_coin_id "BTC" ≠ "" ∧
      pyLower (get_coin_id "BTC") = get_coin_id "BTC") ∧
    (pyLower "xyz123" ≠ "idr" ∧ pyLower "xyz123" ≠ "btc" ∧
      pyLower "xyz123" ≠ "eth" ∧ pyLower "xyz123" ≠ "usdt" ∧
      get_coin_id "xyz123" = pyLower "xyz123") :=
  ⟨⟨by decide, (get_coin_id_total "BTC").1 (by decide),
    (get_coin_id_total "BTC").2.1⟩,
   ⟨by decide, by decide, by decide, by decide,
    (get_coin_id_total "xyz123").2.2.1 (by decide) (by decide) (by decide)
      (by decide)⟩⟩

/-! ### The market report on absent percent fields -/

/-- Claim C1 names a behaviour the code does not have: with the 1h/24h/7d
percent fields absent, `f"{p:.2f}"` raises `TypeError` in both report paths,
so no report is produced at all — the handler falls through to the generic
internal-error reply instead of rendering empty percent fields. -/
theorem percent_none_no_report :
    formatMarketsOutput "BTC" allAbsentItem none none = none ∧
    formatFallbackOutput "BTC" allAbsentDetail = none ∧
    handle_price_reply "BTC" (some allAbsentItem) none none allAbsentDetail =
      internalErrorReply :=
  ⟨rfl, rfl, rfl⟩

/-! ### The conversion calculator -/

/-- Claim C4: the conversion calculator computes `amount * unitPrice` and
formats by the specification's policy in order (destination `"idr"` first,
then `result < 1`, else two decimals), and
`convert(1, "bitcoin", "idr", 1_000_000_000)` renders the amount as
`"1.0000"` and the result as `"Rp1,000,000,000"`. -/
theorem handle_convert_policy :
    (∀ (amount : ℚ) (toT : String) (price : ℚ),
      convert_formats amount toT price = specConvertPolicy amount toT price) ∧
    convert_formats 1 "idr" 1000000000 = ("Rp1,000,000,000", "1.0000") := by
  constructor
  · intro amount toT price
    rfl
  · simp only [convert_formats, if_pos rfl, if_true]
    have hr : (1 : ℚ) * 1000000000 = 1000000000 := by norm_num
    rw [hr]
    have hres : pyFixedGrouped 0 (1000000000 : ℚ) = "1,000,000,000" := by
      simp only [pyFixedGrouped]
      rw [show |(1000000000:ℚ)| * 10 ^ (0:ℕ) = (((1000000000:ℤ)):ℚ) by norm_num,
        rhe_intCast, if_neg (by norm_num : ¬(1000000000:ℚ) < 0)]
      decide
    have hamt : pyFixedGrouped 4 (1 : ℚ) = "1.0000" := by
      simp only [pyFixedGrouped]
      rw [show |(1:ℚ)| * 10 ^ (4:ℕ) = (((10000:ℤ)):ℚ) by norm_num,
        rhe_intCast, if_neg (by norm_num : ¬(1:ℚ) < 0)]
      decide
    rw [hres, hamt]
    decide

/-! ### The tiny-value branch of the formatter -/

theorem pyFixed_tiny {x : ℚ} (hx : x ≠ 0) (ht : |x| < 1/10^10) :
    pyFixed 8 x = (if x < 0 then "-0.00000000" else "0.00000000") := by
  have h8 : rhe (|x| * 10 ^ (8:ℕ)) = 0 := by
    have hnn : (0:ℚ) ≤ |x| * 10 ^ (8:ℕ) := by positivity
    have hlt : |x| * 10 ^ (8:ℕ) < 1/2 := by nlinarith [abs_nonneg x]
    have hfl : ⌊|x| * 10 ^ (8:ℕ)⌋ = 0 := by
      rw [Int.floor_eq_iff]
      push_cast
      constructor
      · exact hnn
      · linarith
    unfold rhe
    rw [hfl]
    rw [if_pos (by push_cast; linarith)]
  simp only [pyFixed]
  rw [h8]
  by_cases hs : x < 0
  · rw [if_pos hs, if_pos hs]
    decide
  · rw [if_neg hs, if_neg hs]
    decide

/-- Claim C6: for input 0 the formatter returns the literal `"0"`, and for
every nonzero `x` with `|x| < 1e-10` it returns the fixed-point rendering of
`x` with exactly 8 decimal places. -/
theorem round_significant_tiny (x : ℚ) (sig : ℤ) :
    round_significant 0 sig = "0" ∧
    (x ≠ 0 → |x| < 1/10^10 →
      round_significant x sig = pyFixed 8 x ∧
      decimalPlaces (round_significant x sig) = some 8) := by
  constructor
  · simp [round_significant]
  · intro hx ht
    have hbr : round_significant x sig = pyFixed 8 x := by
      simp only [round_significant, if_neg hx, if_pos ht]
    refine ⟨hbr, ?_⟩
    rw [hbr, pyFixed_tiny hx ht]
    by_cases hs : x < 0
    · rw [if_pos hs]
      decide
    · rw [if_neg hs]
      decide

/-- Witness for C6 at `x = 1e-11`, `sig = 4`. -/
theorem round_significant_tiny_witness :
    (1/10^11 : ℚ) ≠ 0 ∧ |(1/10^11 : ℚ)| < 1/10^10 ∧
    round_significant (1/10^11 : ℚ) 4 = pyFixed 8 (1/10^11 : ℚ) ∧
    decimalPlaces (round_significant (1/10^11 : ℚ) 4) = some 8 := by
  have habs : |(1/10^11 : ℚ)| = 1/10^11 := abs_of_pos (by norm_num)
  have h1 : (1/10^11 : ℚ) ≠ 0 := by norm_num
  have h2 : |(1/10^11 : ℚ)| < 1/10^10 := by rw [habs]; norm_num
  exact ⟨h1, h2, ((round_significant_tiny (1/10^11) 4).2 h1 h2).1,
    ((round_significant_tiny (1/10^11) 4).2 h1 h2).2⟩

/-- Claim C10: for every nonzero `x` with `|x| < 1e-10`, the 8-decimal
rendering shows only zero digits — `"0.00000000"`, with a leading minus sign
for negative `x` — since any such magnitude rounds to zero at 8 decimal
places. -/
theorem round_significant_tiny_zeros (x : ℚ) (sig : ℤ) (hx : x ≠ 0)
    (ht : |x| < 1/10^10) :
    round_significant x sig = (if x < 0 then "-0.00000000" else "0.00000000") := by
  have hbr : round_significant x sig = pyFixed 8 x := by
    simp only [round_significant, if_neg hx, if_pos ht]
  rw [hbr, pyFixed_tiny hx ht]

/-- Witness for C10 at `x = 1e-11` and `x = -1e-11`. -/
theorem round_significant_tiny_zeros_witness :
    round_significant (1/10^11 : ℚ) 4 = "0.00000000" ∧
    round_significant (-(1/10^11) : ℚ) 4 = "-0.00000000" := by
  have habs : |(1/10^11 : ℚ)| = 1/10^11 := abs_of_pos (by norm_num)
  have habs2 : |(-(1/10^11) : ℚ)| = 1/10^11 := by
    rw [abs_neg, habs]
  constructor
  · rw [round_significant_tiny_zeros (1/10^11) 4 (by norm_num) (by rw [habs]; norm_num),
      if_neg (by norm_num : ¬(1/10^11 : ℚ) < 0)]
  · rw [round_significant_tiny_zeros (-(1/10^11)) 4 (by norm_num) (by rw [habs2]; norm_num),
      if_pos (by norm_num : (-(1/10^11) : ℚ) < 0)]

/-! ### Totality of the formatter on non-finite input -/

/-- Claim C7: the formatter never fails: on non-finite input (`nan`, `inf`,
`-inf`) the body raises and the `except:` fallback returns the value's
default string form (`"nan"`, `"inf"`, `"-inf"`); on every input the call
either completes its body normally or returns that fallback, so every call
yields a string. -/
theorem round_significant_float_total (sig : ℤ) :
    round_significant_float .nan sig = "nan" ∧
    round_significant_float .inf sig = "inf" ∧
    round_significant_float .ninf sig = "-inf" ∧
    (∀ x : PyFloat, (round_significant_body x sig).isOk = true ∨
      round_significant_float x sig = pyStrNonFinite x) := by
  refine ⟨rfl, rfl, rfl, ?_⟩
  intro x
  cases x with
  | finite q => left; rfl
  | nan => right; rfl
  | inf => right; rfl
  | ninf => right; rfl

/-! ### Significant-digit rounding: the half-even tie at 1234.5 -/

theorem rhe_at_1234_5 : rhe (2469/2 : ℚ) = 1234 := by
  have hfl : ⌊(2469/2 : ℚ)⌋ = 1234 := by
    rw [Int.floor_eq_iff]
    constructor <;> norm_num
  unfold rhe
  rw [hfl]
  rw [if_neg (by push_cast; norm_num), if_neg (by push_cast; norm_num),
    if_pos (by norm_num)]

theorem rs_at_1234_5 : round_significant (2469/2 : ℚ) 4 = "1,234" := by
  have hx : (2469/2 : ℚ) ≠ 0 := by norm_num
  have habs : |(2469/2 : ℚ)| = 2469/2 := abs_of_pos (by norm_num)
  have ht : ¬(|(2469/2 : ℚ)| < 1/10^10) := by rw [habs]; norm_num
  have hlog : Int.log 10 |(2469/2 : ℚ)| = 3 := by
    rw [habs]
    exact log10_unique (by norm_num) (by norm_num) (by norm_num)
  simp only [round_significant, if_neg hx, if_neg ht, hlog]
  have hround : pyRound (2469/2 : ℚ) (4 - 3 - 1) = ((1234:ℤ):ℚ) := by
    unfold pyRound
    rw [show ((2469/2 : ℚ) * 10 ^ ((4:ℤ) - 3 - 1)) = 2469/2 by norm_num,
      rhe_at_1234_5]
    norm_num
  rw [hround, pyInt_intCast]
  rw [if_pos (by norm_num)]
  decide

/-- Claim C2, as stated, is false: `round_significant(1234.5, 4)` renders
`"1,234"` (Python `round` ties to even), not `"1,235"` (counterexample for
C2). -/
theorem round_significant_not_1235 :
    round_significant (2469/2 : ℚ) 4 ≠ "1,235" ∧
    round_significant (2469/2 : ℚ) 4 = "1,234" := by
  rw [rs_at_1234_5]
  exact ⟨by decide, rfl⟩

/-- Claim C2 (amended): for input 1234.5 and sig = 4 the formatter rounds to
0 decimal places with round-half-to-even, returning the grouped rendering
`"1,234"`; in general, for `x ≠ 0` with `|x| ≥ 1e-10`, the number of decimal
places used is `d = sig - floor(log10 |x|) - 1` and the rendered value is
`round(x, d)` — grouped as an integer when within `1e-12` of its truncation,
else fixed-point with `max(d, 0)` decimals. -/
theorem round_significant_digits (x : ℚ) (sig : ℤ) (hx : x ≠ 0)
    (ht : ¬(|x| < 1/10^10)) :
    round_significant x sig =
      (if |pyRound x (specDigits x sig) - (pyInt (pyRound x (specDigits x sig)) : ℚ)| <
          1/10^12
       then pyIntGrouped (pyInt (pyRound x (specDigits x sig)))
       else pyFixedGrouped (max (specDigits x sig) 0).toNat (pyRound x (specDigits x sig))) ∧
    round_significant (2469/2 : ℚ) 4 = "1,234" := by
  constructor
  · simp only [round_significant, specDigits, if_neg hx, if_neg ht]
  · exact rs_at_1234_5

/-- Witness for C2 (amended) at `x = 1234.5`, `sig = 4`. -/
theorem round_significant_digits_witness :
    ((2469/2 : ℚ) ≠ 0 ∧ ¬(|(2469/2 : ℚ)| < 1/10^10)) ∧
    round_significant (2469/2 : ℚ) 4 = "1,234" := by
  have habs : |(2469/2 : ℚ)| = 2469/2 := abs_of_pos (by norm_num)
  have h1 : (2469/2 : ℚ) ≠ 0 := by norm_num
  have h2 : ¬(|(2469/2 : ℚ)| < 1/10^10) := by rw [habs]; norm_num
  exact ⟨⟨h1, h2⟩, (round_significant_digits (2469/2) 4 h1 h2).2⟩

/-! ### Stability of the formatter under re-rounding -/

theorem parseF_zero_str : parseF "0" = 0 := by
  unfold parseF
  rw [show ("0" : String).data = ['0'] from rfl,
    show List.filter (fun c => c != ',') ['0'] = ['0'] from by decide,
    parseSigned_no_dash (by decide), parseAbsCs_digits (by decide),
    show digitsVal ['0'] = 0 from rfl]
  norm_num

theorem pyInt_near_grid {r : ℚ} {d : ℤ} (h : IsTenMul r d) (hd12 : d ≤ 12)
    (hnear : |r - (pyInt r : ℚ)| < 1/10^12) : ((pyInt r : ℤ) : ℚ) = r := by
  by_cases hd0 : d ≤ 0
  · obtain ⟨i, hi⟩ := h.to_int hd0
    rw [hi, pyInt_intCast]
  · push_neg at hd0
    obtain ⟨j, hj⟩ := h
    have hpow_eq : (10:ℚ) ^ d = ((10 ^ d.toNat : ℤ) : ℚ) := zpow10_toNat (by omega)
    have hc : ((j - pyInt r * 10 ^ d.toNat : ℤ) : ℚ) = (r - (pyInt r : ℚ)) * 10 ^ d := by
      push_cast
      rw [← hj, sub_mul]
      congr 1
      rw [hpow_eq]
      push_cast
      ring
    have hd12' : (10:ℚ) ^ d ≤ 10 ^ (12:ℕ) := by
      calc (10:ℚ) ^ d ≤ 10 ^ (12:ℤ) := zpow_le_zpow_right₀ (by norm_num) hd12
      _ = 10 ^ (12:ℕ) := by
        rw [← zpow_natCast (10:ℚ) 12]
        norm_num
    have habs : |((j - pyInt r * 10 ^ d.toNat : ℤ) : ℚ)| < 1 := by
      rw [hc, abs_mul, abs_of_pos (zpow10_pos d)]
      calc |r - (pyInt r : ℚ)| * 10 ^ d < (1/10^12) * 10 ^ d :=
        mul_lt_mul_of_pos_right hnear (zpow10_pos d)
      _ ≤ (1/10^12) * 10 ^ (12:ℕ) := by
        apply mul_le_mul_of_nonneg_left hd12' (by norm_num)
      _ = 1 := by norm_num
    set c : ℤ := j - pyInt r * 10 ^ d.toNat with hcdef
    have hlt1 : |c| < 1 := by exact_mod_cast habs
    have hcint : c = 0 := by
      rcases abs_lt.mp hlt1 with ⟨hbound1, hbound2⟩
      omega
    have hzero : (r - (pyInt r : ℚ)) * 10 ^ d = 0 := by
      rw [← hc, hcint]
      norm_num
    rcases mul_eq_zero.mp hzero with h1 | h1
    · exact (sub_eq_zero.mp h1).symm
    · exact absurd h1 (zpow10_ne d)

theorem round_significant_int_grouped {m : ℤ} {sig : ℤ}
    (hism : IsTenMul (m:ℚ) (sig - Int.log 10 |(m:ℚ)| - 1)) :
    round_significant (m:ℚ) sig = pyIntGrouped m := by
  by_cases hm0 : m = 0
  · subst hm0
    rw [show ((0:ℤ):ℚ) = (0:ℚ) by norm_num,
      show round_significant (0:ℚ) sig = "0" from by simp [round_significant]]
    decide
  · have hm0' : ((m:ℚ)) ≠ 0 := by exact_mod_cast hm0
    have h1le : (1:ℚ) ≤ |(m:ℚ)| := by
      rw [← Int.cast_abs]
      exact_mod_cast Int.one_le_abs hm0
    have htiny : ¬(|(m:ℚ)| < 1/10^10) := not_lt.mpr (le_trans (by norm_num) h1le)
    have hfix : pyRound (m:ℚ) (sig - Int.log 10 |(m:ℚ)| - 1) = (m:ℚ) :=
      hism.round_fix
    simp only [round_significant, if_neg hm0', if_neg htiny]
    rw [hfix, pyInt_intCast, if_pos (by rw [sub_self, abs_zero]; norm_num)]

/-- Claim C8 as stated is false: re-rounding is not stable at tiny inputs —
`round_significant(1e-11, 4)` renders `"0.00000000"`, which parses back to
`0` and re-formats as `"0"` (counterexample for C8). -/
theorem round_significant_not_restable :
    round_significant (parseF (round_significant (1/10^11 : ℚ) 4)) 4 ≠
      round_significant (1/10^11 : ℚ) 4 ∧
    round_significant (1/10^11 : ℚ) 4 = "0.00000000" ∧
    round_significant (parseF (round_significant (1/10^11 : ℚ) 4)) 4 = "0" := by
  have habs : |(1/10^11 : ℚ)| = 1/10^11 := abs_of_pos (by norm_num)
  have h1 : (1/10^11 : ℚ) ≠ 0 := by norm_num
  have h2 : |(1/10^11 : ℚ)| < 1/10^10 := by rw [habs]; norm_num
  have hfirst : round_significant (1/10^11 : ℚ) 4 = "0.00000000" := by
    have hbr : round_significant (1/10^11 : ℚ) 4 = pyFixed 8 (1/10^11 : ℚ) := by
      simp only [round_significant, if_neg h1, if_pos h2]
    rw [hbr, pyFixed_tiny h1 h2, if_neg (by norm_num : ¬(1/10^11 : ℚ) < 0)]
  have hparse : parseF "0.00000000" = 0 := by
    unfold parseF
    rw [show ("0.00000000" : String).data =
        ['0'] ++ '.' :: ['0','0','0','0','0','0','0','0'] from rfl,
      show List.filter (fun c => c != ',')
        (['0'] ++ '.' :: ['0','0','0','0','0','0','0','0']) =
        ['0'] ++ '.' :: ['0','0','0','0','0','0','0','0'] from by decide,
      parseSigned_no_dash (by decide), parseAbsCs_split (by decide),
      show digitsVal ['0'] = 0 from rfl,
      show digitsVal ['0','0','0','0','0','0','0','0'] = 0 from rfl]
    norm_num
  have hsecond : round_significant (parseF (round_significant (1/10^11 : ℚ) 4)) 4 = "0" := by
    rw [hfirst, hparse]
    simp [round_significant]
  refine ⟨?_, hfirst, hsecond⟩
  rw [hsecond, hfirst]
  decide

/-- Claim C8 (amended): re-rounding is stable on the formatter's main path —
for every `x` and `sig ≥ 1` with `x = 0`, or `|x| ≥ 1e-10` and the value
rounded to `d = sig - floor(log10 |x|) - 1` decimals not exactly `±` the
power of ten closing `x`'s decade, parsing the output (stripping grouping
separators) and formatting it again with the same `sig` yields the same
string.  (It is not stable in general: tiny inputs collapse to `"0"` — see
the counterexample — and at an exact decade boundary the second pass uses
one fewer decimal place.) -/
theorem round_significant_restable (x : ℚ) (sig : ℤ) (hsig : 1 ≤ sig)
    (hx : x = 0 ∨ (1/10^10 ≤ |x| ∧
      |pyRound x (sig - Int.log 10 |x| - 1)| ≠ 10 ^ (Int.log 10 |x| + 1))) :
    round_significant (parseF (round_significant x sig)) sig =
      round_significant x sig := by
  rcases hx with rfl | ⟨hge, hne⟩
  · have h0 : round_significant (0:ℚ) sig = "0" := by simp [round_significant]
    rw [h0, parseF_zero_str, h0]
  · set e := Int.log 10 |x| with he
    set d := sig - e - 1 with hd
    set r := pyRound x d with hr
    have hx0 : x ≠ 0 := by
      intro h
      rw [h, abs_zero] at hge
      norm_num at hge
    have habs0 : 0 < |x| := abs_pos.mpr hx0
    have htiny : ¬(|x| < 1/10^10) := not_lt.mpr hge
    have hlow : (10:ℚ)^e ≤ |x| := by
      rw [he]
      exact ten_zpow_log_le habs0
    have hhigh : |x| < (10:ℚ)^(e+1) := by
      rw [he]
      exact lt_ten_zpow_log |x|
    have he10 : -10 ≤ e := by
      rw [he]
      apply le_log10 habs0
      calc (10:ℚ)^(-10:ℤ) = 1/10^10 := by rw [zpow_neg]; norm_num
      _ ≤ |x| := hge
    have hed : 0 ≤ e + d := by omega
    have hed1 : 0 ≤ e + 1 + d := by omega
    have hrmul : IsTenMul r d := pyRound_isTenMul x d
    have habs_r : |r| = pyRound |x| d := abs_pyRound x d
    have hr_low : (10:ℚ)^e ≤ |r| := by
      rw [habs_r]
      calc (10:ℚ)^e = pyRound ((10:ℚ)^e) d := (IsTenMul.zpow10 hed).round_fix.symm
      _ ≤ pyRound |x| d := pyRound_mono hlow d
    have hr_hi : |r| ≤ (10:ℚ)^(e+1) := by
      rw [habs_r]
      calc pyRound |x| d ≤ pyRound ((10:ℚ)^(e+1)) d := pyRound_mono (le_of_lt hhigh) d
      _ = (10:ℚ)^(e+1) := (IsTenMul.zpow10 hed1).round_fix
    have hr_hi' : |r| < (10:ℚ)^(e+1) := lt_of_le_of_ne hr_hi hne
    have hr0 : r ≠ 0 := by
      intro h0
      rw [h0, abs_zero] at hr_low
      exact absurd hr_low (not_le.mpr (zpow10_pos e))
    have hlog_r : Int.log 10 |r| = e := log10_unique (abs_pos.mpr hr0) hr_low hr_hi'
    have hge_r : 1/10^10 ≤ |r| := by
      calc (1/10^10 : ℚ) = 10^(-10:ℤ) := by rw [zpow_neg]; norm_num
      _ ≤ (10:ℚ)^e := zpow_le_zpow_right₀ (by norm_num) he10
      _ ≤ |r| := hr_low
    by_cases hfr : |r - (pyInt r : ℚ)| < 1/10^12
    · have hout : round_significant x sig = pyIntGrouped (pyInt r) := by
        simp only [round_significant, if_neg hx0, if_neg htiny, ← he, ← hd, ← hr]
        rw [if_pos hfr]
      have hparse : parseF (round_significant x sig) = ((pyInt r : ℤ) : ℚ) := by
        rw [hout]
        exact parse_pyIntGrouped (pyInt r)
      rw [hparse, hout]
      apply round_significant_int_grouped
      by_cases hd12 : d ≤ 12
      · have hmr : ((pyInt r : ℤ) : ℚ) = r := pyInt_near_grid hrmul hd12 hfr
        rw [hmr, hlog_r, ← hd]
        exact hrmul
      · by_cases hm0 : pyInt r = 0
        · rw [hm0]
          exact ⟨0, by norm_num⟩
        · apply IsTenMul.int_cast
          have habs_m_pos : 0 < |((pyInt r : ℤ) : ℚ)| :=
            abs_pos.mpr (by exact_mod_cast hm0)
          have hlt := log10_lt habs_m_pos (lt_of_le_of_lt (abs_pyInt_le r) hr_hi')
          omega
    · have hd1 : 1 ≤ d := by
        by_contra hdle
        push_neg at hdle
        obtain ⟨i, hi⟩ := hrmul.to_int (by omega)
        apply hfr
        rw [hi, pyInt_intCast, sub_self, abs_zero]
        norm_num
      have hmax : max d 0 = d := by omega
      have hout : round_significant x sig = pyFixedGrouped d.toNat r := by
        simp only [round_significant, if_neg hx0, if_neg htiny, ← he, ← hd, ← hr]
        rw [if_neg hfr, hmax]
      obtain ⟨k, hk⟩ := hrmul
      have hk' : r * 10 ^ d.toNat = (k:ℚ) := by
        rw [← hk]
        congr 1
        rw [← zpow_natCast (10:ℚ) d.toNat, Int.toNat_of_nonneg (by omega : (0:ℤ) ≤ d)]
      have hparse : parseF (round_significant x sig) = r := by
        rw [hout]
        exact parse_pyFixedGrouped (by omega) hk'
      rw [hparse, hout]
      have hrtiny : ¬(|r| < 1/10^10) := not_lt.mpr hge_r
      have hfix : pyRound r d = r := IsTenMul.round_fix ⟨k, hk⟩
      simp only [round_significant, if_neg hr0, if_neg hrtiny, hlog_r, ← hd]
      rw [hfix, if_neg hfr, hmax]

/-- Witness for C8 (amended) at `x = 2`, `sig = 4`. -/
theorem round_significant_restable_witness :
    ((2:ℚ) = 0 ∨ (1/10^10 ≤ |(2:ℚ)| ∧
      |pyRound 2 (4 - Int.log 10 |(2:ℚ)| - 1)| ≠ 10 ^ (Int.log 10 |(2:ℚ)| + 1))) ∧
    round_significant (parseF (round_significant (2:ℚ) 4)) 4 =
      round_significant (2:ℚ) 4 := by
  have habs : |(2:ℚ)| = 2 := abs_of_pos (by norm_num)
  have hlog : Int.log 10 |(2:ℚ)| = 0 := by
    rw [habs]
    exact log10_unique (by norm_num) (by norm_num) (by norm_num)
  have hround : pyRound (2:ℚ) (4 - 0 - 1) = 2 := by
    apply IsTenMul.round_fix
    rw [show (2:ℚ) = ((2:ℤ):ℚ) by norm_num]
    exact IsTenMul.int_cast 2 (by norm_num)
  have hyp : (2:ℚ) = 0 ∨ (1/10^10 ≤ |(2:ℚ)| ∧
      |pyRound 2 (4 - Int.log 10 |(2:ℚ)| - 1)| ≠ 10 ^ (Int.log 10 |(2:ℚ)| + 1)) := by
    right
    constructor
    · rw [habs]
      norm_num
    · rw [hlog, hround, habs]
      norm_num
  exact ⟨hyp, round_significant_restable 2 4 (by norm_num) hyp⟩
